import Mathlib

/-!
# ClipCraft download server — shallow embedding

This file embeds the server core of the ClipCraft repository (the download
queue, the clip-extraction and transcription endpoints, and the file-delete
endpoint) as executable Lean definitions and proves properties of them.

Two server variants exist in the repository:
* `v1` — the plain JavaScript `server.js`;
* `v2` — the TypeScript variant (`src/unnamed/part_003`), which adds input
  validation (URL syntax, time-range checks, path-traversal checks) on top of
  the same queue / subprocess logic.

Times (seconds, JavaScript numbers) are embedded as rationals: the server only
stores and compares them, so no floating-point rounding is observable in any
of the modelled code paths.  Strings are compared through their character
lists; the filenames involved are ASCII, where Lean code points and JavaScript
UTF-16 code units coincide.
-/

namespace ClipCraft

/-! ## JavaScript string primitives -/

/-- `String.prototype.startsWith`, via the underlying character lists. -/
def jsStartsWith (s p : String) : Bool := p.data.isPrefixOf s.data

/-- `String.prototype.endsWith`, via the underlying character lists. -/
def jsEndsWith (s suf : String) : Bool := suf.data.isSuffixOf s.data

/-- Does `sub` occur as a contiguous segment of `l`?  (Helper for
`String.prototype.includes`.) -/
def containsSeg (sub : List Char) : List Char → Bool
  | [] => sub.isEmpty
  | c :: rest => sub.isPrefixOf (c :: rest) || containsSeg sub rest

/-- `String.prototype.includes`. -/
def jsIncludes (s sub : String) : Bool := containsSeg sub.data s.data

/-- Strict lexicographic comparison of character lists by code point — the
order JavaScript's `<` on strings induces (identical to code-unit order on
the ASCII data handled by the server). -/
def lexLtB : List Char → List Char → Bool
  | _, [] => false
  | [], _ :: _ => true
  | a :: as, b :: bs =>
    if a.toNat < b.toNat then true
    else if b.toNat < a.toNat then false
    else lexLtB as bs

/-- JavaScript string `<`. -/
def jsLtB (a b : String) : Bool := lexLtB a.data b.data

/-- JavaScript string `≤` (negation of the reversed strict comparison). -/
def jsLeB (a b : String) : Bool := !(jsLtB b a)

/-- `jsLeB` as a relation, for use with `List.insertionSort`. -/
def jsLe (a b : String) : Prop := jsLeB a b = true

instance : DecidableRel jsLe := fun a b => instDecidableEqBool (jsLeB a b) true

/-- Embedding of `Array.prototype.sort()` with the default (string) comparator:
a sorted, stable permutation of the input in ascending `jsLe` order. -/
def sortStrings (l : List String) : List String := l.insertionSort jsLe

/-! ## Transcription caption chunking

Embeds the caption-formatting loop of `POST /transcribe` (identical in both
variants): `response.words.forEach((word, i) => { ... })` accumulating a
`currentCaption` and pushing it every 8 words or at the last index. -/

/-- A word-with-timestamps entry of the speech-to-text response
(`{word, start, end}`; `end` is a Lean keyword, embedded as `endT`). -/
structure TranscriptionWord where
  word : String
  start : ℚ
  endT : ℚ
deriving DecidableEq

/-- A caption word as built by the server (`{text, startTime, endTime}`). -/
structure CaptionWord where
  text : String
  startTime : ℚ
  endTime : ℚ
deriving DecidableEq

/-- A caption as built by the server (`{text, words, startTime, endTime}`). -/
structure Caption where
  text : String
  words : List CaptionWord
  startTime : ℚ
  endTime : ℚ
deriving DecidableEq

/-- The fresh accumulator `{ text: '', words: [], startTime: 0, endTime: 0 }`. -/
def emptyCaption : Caption := ⟨"", [], 0, 0⟩

/-- One pass of the `forEach` body over the indexed word list; `n` is the
length of the whole word list (the loop compares `i === words.length - 1`). -/
def chunkWords (n : Nat) : List (Nat × TranscriptionWord) → Caption → List Caption → List Caption
  | [], _, acc => acc
  | (i, w) :: rest, cur, acc =>
    let cur := { cur with
      words := cur.words ++ [(⟨w.word, w.start, w.endT⟩ : CaptionWord)],
      text := cur.text ++ (if cur.text ≠ "" then " " else "") ++ w.word }
    let cur := if i = 0 then { cur with startTime := w.start } else cur
    let cur := { cur with endTime := w.endT }
    if 8 ≤ cur.words.length ∨ i = n - 1 then
      chunkWords n rest emptyCaption (acc ++ [cur])
    else
      chunkWords n rest cur acc

/-- The whole caption-formatting block: no `words` field yields no captions. -/
def formatCaptions : Option (List TranscriptionWord) → List Caption
  | none => []
  | some ws => chunkWords ws.length ws.enum emptyCaption []

/-- The parsed body of a successful speech-to-text call. -/
structure TranscriptionResponse where
  text : String
  words : Option (List TranscriptionWord)
deriving DecidableEq

/-! ## Clip extraction (`POST /clip`) -/

/-- The filter both variants apply to the storage directory listing:
`f.endsWith('.mp4') && !f.startsWith('clip_')`. -/
def isCandidate (f : String) : Bool := jsEndsWith f ".mp4" && !(jsStartsWith f "clip_")

/-- Source selection (both variants): `files.filter(...).sort().reverse()[0]`. -/
def selectVideo (files : List String) : Option String :=
  (sortStrings (files.filter isCandidate)).reverse.head?

/-- Outcome of the `/clip` handler up to the point where the transcoding
subprocess would be spawned.  `run` carries the selected source file and the
deterministic output name; the ffmpeg command line itself is beyond every
claim about this endpoint. -/
inductive ClipResult
  | badRequest (msg : String)
  | notFound (msg : String)
  | run (videoFile : String) (outputFile : String)
deriving DecidableEq

/-- The v2 `/clip` handler: type check, then range check (`startTime < 0 ||
endTime <= startTime`), both before the storage directory is listed; then
source selection.  `none` stands for a missing or non-number body field. -/
def clipHandler_v2 (startTime endTime : Option ℚ) (files : List String) (timestamp : Nat) : ClipResult :=
  match startTime, endTime with
  | some s, some e =>
    if s < 0 ∨ e ≤ s then .badRequest "Invalid time range"
    else
      match selectVideo files with
      | none => .notFound "No video file found"
      | some v => .run v ("clip_" ++ toString timestamp ++ ".mp4")
  | _, _ => .badRequest "startTime and endTime must be numbers"

/-- The v1 `/clip` handler: only checks that both fields are present — no
range validation at all.  (v1 additionally looks for a matching `.m4a` audio
file, which only changes the ffmpeg command line, not the selected source.) -/
def clipHandler_v1 (startTime endTime : Option ℚ) (files : List String) (timestamp : Nat) : ClipResult :=
  match startTime, endTime with
  | some _, some _ =>
    match selectVideo files with
    | none => .notFound "No video file found"
    | some v => .run v ("clip_" ++ toString timestamp ++ ".mp4")
  | _, _ => .badRequest "startTime and endTime are required"

/-! ## Transcription pipeline (`POST /transcribe`, v2) -/

/-- Observable outcome of one `/transcribe` request: the HTTP status of the
JSON reply, whether `fs.unlinkSync(audioPath)` ran, and the captions built.
`cleanupRan` records the single unlink site, which the code places after the
upload/parse succeed and before the reply is sent; the surrounding
`try/catch` performs no cleanup. -/
structure TranscribeRun where
  status : Nat
  cleanupRan : Bool
  captions : List Caption
deriving DecidableEq

/-- The v2 `/transcribe` handler.  `extractErr` is the ffmpeg `exec` callback
error (`some msg` = nonzero exit / spawn failure), `upload` the outcome of the
HTTPS call: `.error` for a request error or a non-parseable body (both
`reject`), `.ok` for a parsed `TranscriptionResponse`. -/
def transcribe_v2 (hasApiKey : Bool) (startTime endTime : Option ℚ) (files : List String)
    (extractErr : Option String) (upload : Except String TranscriptionResponse) : TranscribeRun :=
  if hasApiKey = false then ⟨500, false, []⟩
  else
    match startTime, endTime with
    | some _, some _ =>
      match selectVideo files with
      | none => ⟨404, false, []⟩
      | some _ =>
        match extractErr with
        | some _ => ⟨500, false, []⟩
        | none =>
          match upload with
          | .error _ => ⟨500, false, []⟩
          | .ok resp => ⟨200, true, formatCaptions resp.words⟩
    | _, _ => ⟨400, false, []⟩

/-! ## File deletion (`DELETE /file/:filename`)

Paths are modelled as lists of segments; `path.join` with its normalisation of
`..` components is `normFold`.  The filesystem is the list of paths that
currently exist. -/

/-- Split a raw filename on `/` and `\` separators (helper for `path.join`). -/
def splitSegsAux : List Char → List Char → List String
  | [], cur => [String.mk cur.reverse]
  | c :: rest, cur =>
    if c = '/' ∨ c = '\\' then String.mk cur.reverse :: splitSegsAux rest []
    else splitSegsAux rest (c :: cur)

/-- Split a filename into path segments. -/
def splitSegs (s : String) : List String := splitSegsAux s.data []

/-- `path.join` normalisation over segments already accumulated in `acc`:
empty and `.` segments vanish, `..` pops the previous segment. -/
def normFold : List String → List String → List String
  | acc, [] => acc
  | acc, seg :: rest =>
    if seg = "" ∨ seg = "." then normFold acc rest
    else if seg = ".." then normFold acc.dropLast rest
    else normFold (acc ++ [seg]) rest

/-- `path.join(DOWNLOAD_DIR, filename)` with `DOWNLOAD_DIR` given as clean
absolute segments. -/
def joinPath (dir : List String) (name : String) : List String :=
  normFold dir (splitSegs name)

/-- Outcome of a delete request: 400, a deletion of the resolved path, or 404. -/
inductive DeleteOutcome
  | invalid
  | deleted (p : List String)
  | notFound
deriving DecidableEq

/-- The v2 traversal check:
`filename.includes('..') || filename.includes('/') || filename.includes('\\')`. -/
def isTraversal (filename : String) : Bool :=
  jsIncludes filename ".." || jsIncludes filename "/" || jsIncludes filename "\\"

/-- The v2 `DELETE /file/:filename` handler. -/
def deleteFile_v2 (dir : List String) (fsFiles : List (List String)) (filename : String) : DeleteOutcome :=
  if isTraversal filename then .invalid
  else
    let p := joinPath dir filename
    if p ∈ fsFiles then .deleted p else .notFound

/-- The v1 `DELETE /file/:filename` handler: no validation at all. -/
def deleteFile_v1 (dir : List String) (fsFiles : List (List String)) (filename : String) : DeleteOutcome :=
  let p := joinPath dir filename
  if p ∈ fsFiles then .deleted p else .notFound

/-! ## Download queue transition system

The queue core (`downloadQueue`, `currentDownload`, `isProcessing`,
`processQueue`, `downloadVideo`, the legacy `POST /download`) runs on Node's
single-threaded event loop: code between two `await`/promise suspension points
executes atomically.  Each `Event` below is one such atomic stretch, and
`step` is its effect on the shared server state.  `DELETE /queue/:id`
(cancellation) is modelled nowhere: no claim in scope mentions it, and it
would require tracking the drain loop's captured object reference.  The
stdout progress/filename events of a running download touch only
`item.progress` / `item.filename` and are likewise outside every claim. -/

/-- Job status strings. -/
inductive Status
  | queued
  | downloading
  | complete
  | error
deriving DecidableEq

/-- A `DownloadQueueItem`. -/
structure Job where
  id : String
  url : String
  title : String
  status : Status
  progress : ℚ
  addedAt : String
  filename : Option String := none
  error : Option String := none
deriving DecidableEq

/-- How the `yt-dlp` subprocess of one `downloadVideo` call ends: a `close`
event with an exit code, or an `error` event (the process could not be
spawned) whose error carries a message and no exit code. -/
inductive DLOutcome
  | close (code : Int)
  | spawnError (msg : String)

/-- Atomic steps of the server.  `queueAdd` is the `POST /queue/add` handler
(including the synchronous prefix of `processQueue` it may start);
`drainStep` is the resumption of the drain loop when the awaited
`downloadVideo` promise settles; `legacyStart` / `legacyStep` are the
`POST /download` handler and the settlement of its promise. -/
inductive Event
  | queueAdd (url title : Option String) (id addedAt : String)
  | drainStep (r : DLOutcome)
  | legacyStart (url : Option String) (id addedAt : String)
  | legacyStep (idx : Nat) (r : DLOutcome)

/-- External configuration: the predicate `new URL(u)` succeeds on (the v2
URL-format validation defers to the WHATWG parser, which is outside the
repository), and the server port. -/
structure Config where
  urlOk : String → Bool
  port : Nat

/-- The mutable server state, plus ghost fields recording history:
`processed` collects the jobs the drain loop shifted off (in order),
`enqueuedIds` the ids `queueAdd` accepted (in order), and `activeLoops`
counts drain loops currently past their entry guard. -/
structure ServerState where
  downloadQueue : List Job
  currentDownload : Option Job
  isProcessing : Bool
  legacyPending : List Job
  processed : List Job
  enqueuedIds : List String
  activeLoops : Nat
deriving DecidableEq

/-- The initial state. -/
def initState : ServerState := ⟨[], none, false, [], [], [], 0⟩

/-- `video_<id>.mp4`. -/
def videoFilename (id : String) : String := "video_" ++ id ++ ".mp4"

/-- The local URL the close handler writes into `item.url` on success. -/
def downloadUrl (port : Nat) (id : String) : String :=
  "http://localhost:" ++ toString port ++ "/downloads/" ++ videoFilename id

/-- Effect on the job of its `downloadVideo` promise settling, combining the
close handler (`filename`/`url` on exit code 0, or rejection with
`Download failed with code <N>`; rejection with the spawn error itself on an
`error` event) with the drain loop's `try/catch` continuation. -/
def finishJob (port : Nat) (item : Job) : DLOutcome → Job
  | .close c =>
    if c = 0 then
      { item with filename := some (videoFilename item.id),
                  url := downloadUrl port item.id,
                  status := .complete, progress := 100 }
    else
      { item with status := .error,
                  error := some ("Download failed with code " ++ toString c) }
  | .spawnError msg => { item with status := .error, error := some msg }

/-- The synchronous prefix of `processQueue()`: the entry guard
(`if (isProcessing || downloadQueue.length === 0) return`), then
`isProcessing = true` and the first loop iteration up to its `await`
(take the head, publish it as `currentDownload`, mark it downloading). -/
def processQueueEntry (s : ServerState) : ServerState :=
  if s.isProcessing then s
  else
    match s.downloadQueue with
    | [] => s
    | h :: t =>
      let h' := { h with status := Status.downloading }
      { s with isProcessing := true, downloadQueue := h' :: t,
               currentDownload := some h', activeLoops := s.activeLoops + 1 }

/-- The fresh job `POST /queue/add` builds (`title || 'Video'`). -/
def mkJob (u : String) (title : Option String) (id addedAt : String) : Job :=
  { id := id, url := u,
    title := match title with | some t => if t = "" then "Video" else t | none => "Video",
    status := .queued, progress := 0, addedAt := addedAt }

/-- `downloadQueue.push(item)` plus the ghost enqueue record. -/
def pushJob (s : ServerState) (job : Job) (id : String) : ServerState :=
  { s with downloadQueue := s.downloadQueue ++ [job],
           enqueuedIds := s.enqueuedIds ++ [id] }

/-- The v2 `POST /queue/add` handler: reject missing/empty url (falsiness of
`!url`), reject when `new URL(url)` throws, otherwise push the queued job and
start the drain loop if it is not running (the push leaves `isProcessing`
untouched, so the guard is read on the pushed state).  A rejection leaves the
state untouched (the 400 reply carries no state). -/
def queueAddStep (cfg : Config) (s : ServerState) (url title : Option String) (id addedAt : String) : ServerState :=
  match url with
  | none => s
  | some u =>
    if u = "" then s
    else if cfg.urlOk u = false then s
    else if s.isProcessing then pushJob s (mkJob u title id addedAt) id
    else processQueueEntry (pushJob s (mkJob u title id addedAt) id)

/-- Resumption of the drain loop: finish the head job, shift it off, then
either continue with the next head (mark it downloading, `await` again) or
exit the loop (`currentDownload = null; isProcessing = false`). -/
def drainStepFn (cfg : Config) (s : ServerState) (r : DLOutcome) : ServerState :=
  if s.isProcessing then
    match s.downloadQueue with
    | [] => s
    | item :: rest =>
      let item' := finishJob cfg.port item r
      let processed := s.processed ++ [item']
      match rest with
      | [] =>
        { s with downloadQueue := [], currentDownload := none, isProcessing := false,
                 processed := processed, activeLoops := s.activeLoops - 1 }
      | next :: tail =>
        let next' := { next with status := Status.downloading }
        { s with downloadQueue := next' :: tail, currentDownload := some next',
                 processed := processed }
  else s

/-- The v2 `POST /download` handler up to its `await`: validate the url, build
an item that is never put on the queue, and overwrite `currentDownload` with
it. -/
def legacyStartStep (cfg : Config) (s : ServerState) (url : Option String) (id addedAt : String) : ServerState :=
  match url with
  | none => s
  | some u =>
    if u = "" then s
    else if cfg.urlOk u = false then s
    else
      let item : Job := { id := id, url := u, title := "Video", status := .downloading,
                          progress := 0, addedAt := addedAt }
      { s with currentDownload := some item, legacyPending := s.legacyPending ++ [item] }

/-- Settlement of a pending legacy download: both the `.then` and the
`.catch` branch set `currentDownload = null`; the item was never queued. -/
def legacyStepFn (s : ServerState) (idx : Nat) : ServerState :=
  if idx < s.legacyPending.length then
    { s with legacyPending := s.legacyPending.eraseIdx idx, currentDownload := none }
  else s

/-- One atomic step of the server. -/
def step (cfg : Config) (s : ServerState) : Event → ServerState
  | .queueAdd url title id addedAt => queueAddStep cfg s url title id addedAt
  | .drainStep r => drainStepFn cfg s r
  | .legacyStart url id addedAt => legacyStartStep cfg s url id addedAt
  | .legacyStep idx _ => legacyStepFn s idx

/-- Run a trace of events from the initial state. -/
def run (cfg : Config) (tr : List Event) : ServerState :=
  tr.foldl (step cfg) initState

/-- Number of jobs in a queue whose status is `downloading`. -/
def countDownloading (q : List Job) : Nat :=
  q.countP (fun j => decide (j.status = Status.downloading))

/-- Events belonging to the queue subsystem proper: enqueue requests and the
drain loop's own continuations (no legacy `POST /download` traffic). -/
def isQueueEvent : Event → Bool
  | .queueAdd .. => true
  | .drainStep _ => true
  | _ => false

/-- The inductive invariant of the queue subsystem: an idle server has an
empty queue, no active pointer and no running loop; a busy server has exactly
one running loop, a downloading head published as `currentDownload`, and a
queued tail; and history: processed ids followed by queued ids are exactly
the accepted enqueue ids in order. -/
def QInv (s : ServerState) : Prop :=
  (s.isProcessing = false → s.downloadQueue = [] ∧ s.currentDownload = none ∧ s.activeLoops = 0)
  ∧ (s.isProcessing = true →
      s.activeLoops = 1 ∧
      ∃ h t, s.downloadQueue = h :: t ∧ h.status = Status.downloading ∧
        (∀ j ∈ t, j.status = Status.queued) ∧ s.currentDownload = some h)
  ∧ s.processed.map Job.id ++ s.downloadQueue.map Job.id = s.enqueuedIds

/-- The v1 `POST /queue/add` handler: only the falsiness check `if (!url)`,
no URL-format validation of any kind. -/
def queueAddStep_v1 (s : ServerState) (url title : Option String) (id addedAt : String) : ServerState :=
  match url with
  | none => s
  | some u =>
    if u = "" then s
    else if s.isProcessing then pushJob s (mkJob u title id addedAt) id
    else processQueueEntry (pushJob s (mkJob u title id addedAt) id)

/-! ## Concrete fixtures used by witnesses and counterexamples -/

/-- A configuration for concrete runs: every URL accepted, the default port. -/
def sampleCfg : Config := ⟨fun _ => true, 3000⟩

/-- The spec's nine-word example list, with distinct integer timestamps. -/
def nineWords : List TranscriptionWord :=
  [⟨"hi", 1, 2⟩, ⟨"there", 2, 3⟩, ⟨"w2", 3, 4⟩, ⟨"w3", 4, 5⟩, ⟨"w4", 5, 6⟩,
   ⟨"w5", 6, 7⟩, ⟨"w6", 7, 8⟩, ⟨"w7", 8, 9⟩, ⟨"w8", 9, 10⟩]

/-- Two enqueues followed by one drain-loop resumption. -/
def trSample : List Event :=
  [.queueAdd (some "http://a") none "1" "t1",
   .queueAdd (some "http://b") none "2" "t2",
   .drainStep (.close 0)]

/-- One enqueue, then a legacy `POST /download` request. -/
def trLegacy : List Event :=
  [.queueAdd (some "http://a") none "1" "t1",
   .legacyStart (some "http://b") "2" "t2"]

/-- The downloading head job of `procState`. -/
def jobA : Job := ⟨"1", "http://a", "Video", .downloading, 0, "t1", none, none⟩

/-- The queued second job of `procState`. -/
def jobB : Job := ⟨"2", "http://b", "Video", .queued, 0, "t2", none, none⟩

/-- A server state in the middle of draining: `jobA` downloading at the head,
`jobB` queued behind it. -/
def procState : ServerState := ⟨[jobA, jobB], some jobA, true, [], [], ["1", "2"], 1⟩

/-! ## Order lemmas for the string comparison -/

theorem lexLtB_irrefl (a : List Char) : lexLtB a a = false := by
  induction a with
  | nil => rfl
  | cons x as ih => simp [lexLtB, Nat.lt_irrefl, ih]

theorem lexLtB_asymm {a b : List Char} (h : lexLtB a b = true) : lexLtB b a = false := by
  induction a generalizing b with
  | nil =>
    cases b with
    | nil => simp [lexLtB] at h
    | cons y bs => simp [lexLtB]
  | cons x as ih =>
    cases b with
    | nil => simp [lexLtB] at h
    | cons y bs =>
      simp only [lexLtB] at h ⊢
      rcases Nat.lt_trichotomy x.toNat y.toNat with hlt | heq | hgt
      · rw [if_neg (by omega), if_pos hlt]
      · rw [if_neg (by omega), if_neg (by omega)] at h
        rw [if_neg (by omega), if_neg (by omega)]
        exact ih h
      · rw [if_neg (by omega), if_pos hgt] at h
        simp at h

theorem lexLtB_or {a c : List Char} (h : lexLtB a c = true) (b : List Char) :
    lexLtB a b = true ∨ lexLtB b c = true := by
  induction a generalizing b c with
  | nil =>
    cases c with
    | nil => simp [lexLtB] at h
    | cons z cs =>
      cases b with
      | nil => right; simp [lexLtB]
      | cons y bs => left; simp [lexLtB]
  | cons x as ih =>
    cases c with
    | nil => simp [lexLtB] at h
    | cons z cs =>
      cases b with
      | nil => right; simp [lexLtB]
      | cons y bs =>
        simp only [lexLtB] at h ⊢
        rcases Nat.lt_trichotomy x.toNat z.toNat with hxz | hxz | hxz
        · rcases Nat.lt_trichotomy x.toNat y.toNat with hxy | hxy | hxy
          · left; rw [if_pos hxy]
          · right; rw [if_pos (by omega)]
          · right; rw [if_pos (by omega)]
        · rw [if_neg (by omega), if_neg (by omega)] at h
          rcases Nat.lt_trichotomy x.toNat y.toNat with hxy | hxy | hxy
          · left; rw [if_pos hxy]
          · rcases ih h bs with h1 | h1
            · left; rw [if_neg (by omega), if_neg (by omega)]; exact h1
            · right; rw [if_neg (by omega), if_neg (by omega)]; exact h1
          · right; rw [if_pos (by omega)]
        · rw [if_neg (by omega), if_pos hxz] at h
          simp at h

theorem jsLeB_refl (a : String) : jsLeB a a = true := by
  simp [jsLeB, jsLtB, lexLtB_irrefl]

theorem jsLe_total : IsTotal String jsLe := by
  constructor
  intro a b
  by_cases h : lexLtB b.data a.data = true
  · right
    have h2 := lexLtB_asymm h
    simp [jsLe, jsLeB, jsLtB, h2]
  · left
    rw [Bool.not_eq_true] at h
    simp [jsLe, jsLeB, jsLtB, h]

theorem jsLe_trans : IsTrans String jsLe := by
  constructor
  intro a b c hab hbc
  simp only [jsLe, jsLeB, jsLtB, Bool.not_eq_true'] at hab hbc ⊢
  by_contra hca
  rw [Bool.not_eq_false] at hca
  rcases lexLtB_or hca b.data with h | h
  · rw [hbc] at h; cases h
  · rw [hab] at h; cases h

/-! ## Source-selection lemmas -/

theorem pairwise_getLast {α : Type} {r : α → α → Prop} :
    ∀ {l : List α}, l.Pairwise r → ∀ {f : α}, l.getLast? = some f → ∀ g ∈ l, g = f ∨ r g f := by
  intro l
  induction l with
  | nil => intro _ f hf; simp at hf
  | cons x xs ih =>
    intro hp f hf g hg
    rcases List.pairwise_cons.mp hp with ⟨hx, hxs⟩
    cases xs with
    | nil =>
      simp at hf hg
      left; rw [hg, hf]
    | cons y ys =>
      have hf' : (y :: ys).getLast? = some f := by
        rw [List.getLast?_cons_cons] at hf; exact hf
      rcases List.mem_cons.mp hg with rfl | hg'
      · right; exact hx f (List.mem_of_mem_getLast? hf')
      · exact ih hxs hf' g hg'

theorem selectVideo_spec {files : List String} {f : String} (h : selectVideo files = some f) :
    f ∈ files ∧ isCandidate f = true ∧ ∀ g ∈ files, isCandidate g = true → jsLeB g f = true := by
  unfold selectVideo sortStrings at h
  rw [List.head?_reverse] at h
  have hperm := List.perm_insertionSort jsLe (files.filter isCandidate)
  have hsorted := @List.sorted_insertionSort String jsLe _ jsLe_total jsLe_trans
    (files.filter isCandidate)
  have hmemf : f ∈ (files.filter isCandidate).insertionSort jsLe :=
    List.mem_of_mem_getLast? h
  have hf2 : f ∈ files.filter isCandidate := hperm.mem_iff.mp hmemf
  refine ⟨(List.mem_filter.mp hf2).1, (List.mem_filter.mp hf2).2, ?_⟩
  intro g hg hcand
  have hgmem : g ∈ (files.filter isCandidate).insertionSort jsLe :=
    hperm.mem_iff.mpr (List.mem_filter.mpr ⟨hg, hcand⟩)
  rcases pairwise_getLast hsorted h g hgmem with hEq | hr
  · rw [hEq]; exact jsLeB_refl f
  · exact hr

theorem selectVideo_eq_none {files : List String} :
    selectVideo files = none ↔ ∀ g ∈ files, isCandidate g = false := by
  unfold selectVideo sortStrings
  rw [List.head?_reverse, List.getLast?_eq_none_iff]
  constructor
  · intro h g hg
    by_contra hcand
    rw [Bool.not_eq_false] at hcand
    have hl := (List.perm_insertionSort jsLe (files.filter isCandidate)).length_eq
    rw [h] at hl
    have hnil : files.filter isCandidate = [] := List.eq_nil_of_length_eq_zero hl.symm
    have : g ∈ files.filter isCandidate := List.mem_filter.mpr ⟨hg, hcand⟩
    rw [hnil] at this
    cases this
  · intro h
    have hnil : files.filter isCandidate = [] := by
      rw [List.filter_eq_nil_iff]
      intro a ha
      rw [h a ha]; simp
    rw [hnil]; rfl

/-! ## Queue-invariant machinery -/

theorem qinv_init : QInv initState := by
  refine ⟨fun _ => ⟨rfl, rfl, rfl⟩, fun h => ?_, rfl⟩
  simp [initState] at h

theorem finishJob_id (port : Nat) (item : Job) (r : DLOutcome) :
    (finishJob port item r).id = item.id := by
  cases r with
  | close c => by_cases hc : c = 0 <;> simp [finishJob, hc]
  | spawnError msg => simp [finishJob]

theorem qinv_queueAdd (cfg : Config) (s : ServerState) (url title : Option String)
    (id addedAt : String) (hs : QInv s) :
    QInv (queueAddStep cfg s url title id addedAt) := by
  obtain ⟨hidle, hbusy, hghost⟩ := hs
  cases url with
  | none => exact ⟨hidle, hbusy, hghost⟩
  | some u =>
    simp only [queueAddStep]
    by_cases hu : u = ""
    · rw [if_pos hu]; exact ⟨hidle, hbusy, hghost⟩
    · rw [if_neg hu]
      by_cases hok : cfg.urlOk u = false
      · rw [if_pos hok]; exact ⟨hidle, hbusy, hghost⟩
      · rw [if_neg hok]
        cases hproc : s.isProcessing with
        | true =>
          rw [if_pos rfl]
          obtain ⟨hloops, h, t, hqeq, hst, htail, hcur⟩ := hbusy hproc
          refine ⟨fun hcontra => by simp [pushJob, hproc] at hcontra, fun _ => ?_, ?_⟩
          · refine ⟨hloops, h, t ++ [mkJob u title id addedAt], ?_, hst, ?_, hcur⟩
            · simp [pushJob, hqeq]
            · intro j hj
              rcases List.mem_append.mp hj with hj1 | hj2
              · exact htail j hj1
              · rw [List.mem_singleton.mp hj2]; rfl
          · simp only [pushJob, List.map_append]
            rw [← List.append_assoc, hghost]
            rfl
        | false =>
          rw [if_neg (by simp)]
          obtain ⟨hq0, hc0, hl0⟩ := hidle hproc
          simp only [processQueueEntry, pushJob, hproc, hq0, List.nil_append, hl0,
            Bool.false_eq_true, if_false]
          refine ⟨fun hcontra => by simp at hcontra, fun _ => ?_, ?_⟩
          · exact ⟨rfl, { mkJob u title id addedAt with status := Status.downloading }, [], rfl, rfl,
              fun j hj => absurd hj (List.not_mem_nil j), rfl⟩
          · simp only [List.map_cons, List.map_nil]
            rw [hq0] at hghost
            simp only [List.map_nil, List.append_nil] at hghost
            rw [← hghost]
            rfl

theorem qinv_drain (cfg : Config) (s : ServerState) (r : DLOutcome) (hs : QInv s) :
    QInv (drainStepFn cfg s r) := by
  obtain ⟨hidle, hbusy, hghost⟩ := hs
  cases hproc : s.isProcessing with
  | false =>
    unfold drainStepFn
    simp only [hproc, if_false]
    exact ⟨hidle, hbusy, hghost⟩
  | true =>
    obtain ⟨hloops, h, t, hqeq, hst, htail, hcur⟩ := hbusy hproc
    unfold drainStepFn
    simp only [hproc, hqeq, if_true]
    cases t with
    | nil =>
      refine ⟨fun _ => ⟨rfl, rfl, by rw [hloops]⟩, fun hcontra => by simp at hcontra, ?_⟩
      simp only [List.map_append, List.map_cons, List.map_nil, List.append_nil]
      rw [finishJob_id]
      rw [hqeq] at hghost
      simpa using hghost
    | cons next tail =>
      refine ⟨fun hcontra => by simp [hproc] at hcontra, fun _ => ?_, ?_⟩
      · exact ⟨hloops, { next with status := Status.downloading }, tail, rfl, rfl,
          fun j hj => htail j (List.mem_cons_of_mem next hj), rfl⟩
      · simp only [List.map_append, List.map_cons, List.map_nil]
        rw [finishJob_id]
        rw [hqeq] at hghost
        simp only [List.map_cons] at hghost
        rw [← hghost]
        simp

theorem qinv_step (cfg : Config) (s : ServerState) (e : Event) (hs : QInv s)
    (he : isQueueEvent e = true) : QInv (step cfg s e) := by
  cases e with
  | queueAdd url title id addedAt => exact qinv_queueAdd cfg s url title id addedAt hs
  | drainStep r => exact qinv_drain cfg s r hs
  | legacyStart url id addedAt => simp [isQueueEvent] at he
  | legacyStep idx r => simp [isQueueEvent] at he

theorem qinv_fold (cfg : Config) : ∀ (tr : List Event) (s : ServerState), QInv s →
    (∀ e ∈ tr, isQueueEvent e = true) → QInv (tr.foldl (step cfg) s)
  | [], _, hs, _ => hs
  | e :: es, s, hs, h =>
    qinv_fold cfg es (step cfg s e)
      (qinv_step cfg s e hs (h e (List.mem_cons_self e es)))
      (fun x hx => h x (List.mem_cons_of_mem e hx))

theorem qinv_run (cfg : Config) (tr : List Event)
    (h : ∀ e ∈ tr, isQueueEvent e = true) : QInv (run cfg tr) :=
  qinv_fold cfg tr initState qinv_init h

/-! ## Drain-step equations -/

theorem drainStepFn_last (cfg : Config) (s : ServerState) (item : Job)
    (hp : s.isProcessing = true) (hq : s.downloadQueue = [item]) (r : DLOutcome) :
    drainStepFn cfg s r
      = { s with downloadQueue := [], currentDownload := none, isProcessing := false,
                 processed := s.processed ++ [finishJob cfg.port item r],
                 activeLoops := s.activeLoops - 1 } := by
  unfold drainStepFn
  simp only [hp, hq, if_true]

theorem drainStepFn_cons (cfg : Config) (s : ServerState) (item next : Job) (tail : List Job)
    (hp : s.isProcessing = true) (hq : s.downloadQueue = item :: next :: tail) (r : DLOutcome) :
    drainStepFn cfg s r
      = { s with downloadQueue := { next with status := Status.downloading } :: tail,
                 currentDownload := some { next with status := Status.downloading },
                 processed := s.processed ++ [finishJob cfg.port item r] } := by
  unfold drainStepFn
  simp only [hp, hq, if_true]

/-! ## Claim theorems -/

/-- Claim C1: over every trace of enqueue events interleaved with the drain
loop's own continuations, at most one queued job has status `downloading`, at
most one drain loop is past its entry guard at any instant, and the jobs the
loop has processed and removed, followed by the jobs still queued, list the
accepted enqueues in exact arrival (FIFO) order. -/
theorem C1_queue_single_active_fifo (cfg : Config) (tr : List Event)
    (h : ∀ e ∈ tr, isQueueEvent e = true) :
    countDownloading (run cfg tr).downloadQueue ≤ 1
    ∧ (run cfg tr).activeLoops ≤ 1
    ∧ (run cfg tr).processed.map Job.id ++ (run cfg tr).downloadQueue.map Job.id
        = (run cfg tr).enqueuedIds := by
  obtain ⟨hidle, hbusy, hghost⟩ := qinv_run cfg tr h
  refine ⟨?_, ?_, hghost⟩
  · cases hproc : (run cfg tr).isProcessing with
    | false =>
      rw [(hidle hproc).1]
      simp [countDownloading]
    | true =>
      obtain ⟨_, hd, t, hqeq, hst, htail, _⟩ := hbusy hproc
      rw [hqeq]
      unfold countDownloading
      have ht : t.countP (fun j => decide (j.status = Status.downloading)) = 0 := by
        rw [List.countP_eq_zero]
        intro j hj
        simp [htail j hj]
      rw [List.countP_cons_of_pos _ _ (by simp [hst]), ht]
  · cases hproc : (run cfg tr).isProcessing with
    | false => rw [(hidle hproc).2.2]; omega
    | true => rw [(hbusy hproc).1]

/-- Witness for C1 at a concrete trace. -/
theorem C1_queue_single_active_fifo_witness :
    (∀ e ∈ trSample, isQueueEvent e = true)
    ∧ (countDownloading (run sampleCfg trSample).downloadQueue ≤ 1
       ∧ (run sampleCfg trSample).activeLoops ≤ 1
       ∧ (run sampleCfg trSample).processed.map Job.id
           ++ (run sampleCfg trSample).downloadQueue.map Job.id
           = (run sampleCfg trSample).enqueuedIds) :=
  ⟨by decide, C1_queue_single_active_fifo sampleCfg trSample (by decide)⟩

/-- Claim C4 counterexample: enqueue one job (which becomes the downloading
queue head), then hit the legacy `POST /download` endpoint: `currentDownload`
now holds the never-queued legacy item, not the queue head. -/
theorem C4_counterexample :
    (run sampleCfg trLegacy).currentDownload ≠ none
    ∧ (run sampleCfg trLegacy).currentDownload ≠ (run sampleCfg trLegacy).downloadQueue.head? := by
  decide

/-- Claim C4 (amended): in every state reachable by enqueue and drain-loop
events alone — without the legacy synchronous download endpoint —
`currentDownload` is empty or holds exactly the job at the head of the
queue. -/
theorem C4_current_is_head (cfg : Config) (tr : List Event)
    (h : ∀ e ∈ tr, isQueueEvent e = true) :
    (run cfg tr).currentDownload = none
    ∨ (run cfg tr).currentDownload = (run cfg tr).downloadQueue.head? := by
  obtain ⟨hidle, hbusy, _⟩ := qinv_run cfg tr h
  cases hproc : (run cfg tr).isProcessing with
  | false => exact Or.inl (hidle hproc).2.1
  | true =>
    obtain ⟨_, hd, t, hqeq, _, _, hcur⟩ := hbusy hproc
    right
    rw [hcur, hqeq]
    rfl

/-- Witness for the amended C4 at a concrete trace. -/
theorem C4_current_is_head_witness :
    (∀ e ∈ trSample, isQueueEvent e = true)
    ∧ ((run sampleCfg trSample).currentDownload = none
       ∨ (run sampleCfg trSample).currentDownload = (run sampleCfg trSample).downloadQueue.head?) :=
  ⟨by decide, C4_current_is_head sampleCfg trSample (by decide)⟩

/-- Claim C7: when the awaited download of the queue head settles in failure —
a `close` event with nonzero exit code `c`, or a spawn `error` event carrying
only a message — the drain loop records the error in the job's `error` field
(whose text contains the exit code in the first case, and is exactly the spawn
error's message, with no exit code, in the second), removes the failed job
from the queue instead of throwing, and proceeds to the next queued job. -/
theorem C7_failure_captured (cfg : Config) (s : ServerState) (item : Job) (rest : List Job)
    (hp : s.isProcessing = true) (hq : s.downloadQueue = item :: rest)
    (c : Int) (hc : ¬ c = 0) (msg : String) :
    ((drainStepFn cfg s (.close c)).processed.getLast?
        = some { item with status := Status.error,
                           error := some ("Download failed with code " ++ toString c) }
     ∧ (∃ pre suf, "Download failed with code " ++ toString c = pre ++ toString c ++ suf)
     ∧ (drainStepFn cfg s (.close c)).downloadQueue.map Job.id = rest.map Job.id
     ∧ (∀ next tail, rest = next :: tail →
         (drainStepFn cfg s (.close c)).isProcessing = true
         ∧ (drainStepFn cfg s (.close c)).downloadQueue.head?
             = some { next with status := Status.downloading }))
    ∧ ((drainStepFn cfg s (.spawnError msg)).processed.getLast?
        = some { item with status := Status.error, error := some msg }
     ∧ (drainStepFn cfg s (.spawnError msg)).downloadQueue.map Job.id = rest.map Job.id
     ∧ (∀ next tail, rest = next :: tail →
         (drainStepFn cfg s (.spawnError msg)).isProcessing = true
         ∧ (drainStepFn cfg s (.spawnError msg)).downloadQueue.head?
             = some { next with status := Status.downloading })) := by
  have hclose : finishJob cfg.port item (.close c)
      = { item with status := Status.error,
                    error := some ("Download failed with code " ++ toString c) } := by
    simp [finishJob, hc]
  have hspawn : finishJob cfg.port item (.spawnError msg)
      = { item with status := Status.error, error := some msg } := by
    simp [finishJob]
  cases rest with
  | nil =>
    refine ⟨⟨?_, ⟨"Download failed with code ", "", by simp⟩, ?_, ?_⟩, ?_, ?_, ?_⟩
    · rw [drainStepFn_last cfg s item hp hq, ← hclose]
      simp [List.getLast?_concat]
    · rw [drainStepFn_last cfg s item hp hq]
    · intro next tail hcontra; cases hcontra
    · rw [drainStepFn_last cfg s item hp hq, ← hspawn]
      simp [List.getLast?_concat]
    · rw [drainStepFn_last cfg s item hp hq]
    · intro next tail hcontra; cases hcontra
  | cons next tail =>
    refine ⟨⟨?_, ⟨"Download failed with code ", "", by simp⟩, ?_, ?_⟩, ?_, ?_, ?_⟩
    · rw [drainStepFn_cons cfg s item next tail hp hq, ← hclose]
      simp [List.getLast?_concat]
    · rw [drainStepFn_cons cfg s item next tail hp hq]
      rfl
    · intro n2 t2 heq
      rw [drainStepFn_cons cfg s item next tail hp hq]
      obtain ⟨rfl, rfl⟩ : n2 = next ∧ t2 = tail := by
        injection heq with h1 h2; exact ⟨h1.symm, h2.symm⟩
      exact ⟨hp, rfl⟩
    · rw [drainStepFn_cons cfg s item next tail hp hq, ← hspawn]
      simp [List.getLast?_concat]
    · rw [drainStepFn_cons cfg s item next tail hp hq]
      rfl
    · intro n2 t2 heq
      rw [drainStepFn_cons cfg s item next tail hp hq]
      obtain ⟨rfl, rfl⟩ : n2 = next ∧ t2 = tail := by
        injection heq with h1 h2; exact ⟨h1.symm, h2.symm⟩
      exact ⟨hp, rfl⟩

/-- Witness for C7 at a concrete mid-drain state. -/
theorem C7_failure_captured_witness :
    (procState.isProcessing = true ∧ procState.downloadQueue = jobA :: [jobB] ∧ ¬ (1 : Int) = 0)
    ∧ (((drainStepFn sampleCfg procState (.close 1)).processed.getLast?
        = some { jobA with status := Status.error,
                           error := some ("Download failed with code " ++ toString (1 : Int)) }
     ∧ (∃ pre suf, "Download failed with code " ++ toString (1 : Int) = pre ++ toString (1 : Int) ++ suf)
     ∧ (drainStepFn sampleCfg procState (.close 1)).downloadQueue.map Job.id = [jobB].map Job.id
     ∧ (∀ next tail, [jobB] = next :: tail →
         (drainStepFn sampleCfg procState (.close 1)).isProcessing = true
         ∧ (drainStepFn sampleCfg procState (.close 1)).downloadQueue.head?
             = some { next with status := Status.downloading }))
    ∧ ((drainStepFn sampleCfg procState (.spawnError "spawn ENOENT")).processed.getLast?
        = some { jobA with status := Status.error, error := some "spawn ENOENT" }
     ∧ (drainStepFn sampleCfg procState (.spawnError "spawn ENOENT")).downloadQueue.map Job.id
         = [jobB].map Job.id
     ∧ (∀ next tail, [jobB] = next :: tail →
         (drainStepFn sampleCfg procState (.spawnError "spawn ENOENT")).isProcessing = true
         ∧ (drainStepFn sampleCfg procState (.spawnError "spawn ENOENT")).downloadQueue.head?
             = some { next with status := Status.downloading }))) :=
  ⟨⟨rfl, rfl, by decide⟩,
   C7_failure_captured sampleCfg procState jobA [jobB] rfl rfl 1 (by decide) "spawn ENOENT"⟩

/-- Claim C10: when the head job's download completes successfully, the close
handler overwrites its `url` field — which until then held the submitted
source URL — with the local download URL, while `id`, `title` and `addedAt`
keep their enqueue-time values and `status`, `progress`, `filename` record the
completion. -/
theorem C10_url_overwrite (cfg : Config) (s : ServerState) (item : Job) (rest : List Job)
    (hp : s.isProcessing = true) (hq : s.downloadQueue = item :: rest)
    (hurl : item.url ≠ downloadUrl cfg.port item.id) :
    ∃ j, (drainStepFn cfg s (.close 0)).processed.getLast? = some j
      ∧ j.url = downloadUrl cfg.port item.id
      ∧ j.url ≠ item.url
      ∧ j.id = item.id ∧ j.title = item.title ∧ j.addedAt = item.addedAt
      ∧ j.status = Status.complete ∧ j.progress = 100
      ∧ j.filename = some (videoFilename item.id) := by
  refine ⟨finishJob cfg.port item (.close 0), ?_, ?_, ?_, ?_, ?_, ?_, ?_, ?_, ?_⟩
  · cases rest with
    | nil =>
      rw [drainStepFn_last cfg s item hp hq]
      simp [List.getLast?_concat]
    | cons next tail =>
      rw [drainStepFn_cons cfg s item next tail hp hq]
      simp [List.getLast?_concat]
  · simp [finishJob]
  · simp only [finishJob]
    rw [if_pos trivial]
    exact fun hcontra => hurl (Eq.symm hcontra)
  · simp [finishJob]
  · simp [finishJob]
  · simp [finishJob]
  · simp [finishJob]
  · simp [finishJob]
  · simp [finishJob]

/-- Witness for C10 at a concrete mid-drain state. -/
theorem C10_url_overwrite_witness :
    (procState.isProcessing = true ∧ procState.downloadQueue = jobA :: [jobB]
      ∧ jobA.url ≠ downloadUrl sampleCfg.port jobA.id)
    ∧ (∃ j, (drainStepFn sampleCfg procState (.close 0)).processed.getLast? = some j
      ∧ j.url = downloadUrl sampleCfg.port jobA.id
      ∧ j.url ≠ jobA.url
      ∧ j.id = jobA.id ∧ j.title = jobA.title ∧ j.addedAt = jobA.addedAt
      ∧ j.status = Status.complete ∧ j.progress = 100
      ∧ j.filename = some (videoFilename jobA.id)) :=
  ⟨⟨rfl, rfl, by decide⟩,
   C10_url_overwrite sampleCfg procState jobA [jobB] rfl rfl (by decide)⟩

/-- Claim C2 (code bug): on the nine-word example list the chunker produces
exactly 2 captions and the first is as the claim describes (words 0–7,
`startTime = word[0].startTime = 1`, `endTime = word[7].endTime = 9`, words
joined by single spaces), but the second caption's `startTime` is `0` — the
reset accumulator value — and not `word[8].startTime = 9`: the code assigns
`currentCaption.startTime` only when `i === 0`. -/
theorem C2_caption_chunk_bug :
    formatCaptions (some nineWords)
      = [⟨"hi there w2 w3 w4 w5 w6 w7",
          [⟨"hi", 1, 2⟩, ⟨"there", 2, 3⟩, ⟨"w2", 3, 4⟩, ⟨"w3", 4, 5⟩, ⟨"w4", 5, 6⟩,
           ⟨"w5", 6, 7⟩, ⟨"w6", 7, 8⟩, ⟨"w7", 8, 9⟩], 1, 9⟩,
         ⟨"w8", [⟨"w8", 9, 10⟩], 0, 10⟩]
    ∧ nineWords[8]? = some ⟨"w8", 9, 10⟩
    ∧ (9 : ℚ) ≠ 0 := by decide

/-- Claim C3 counterexample: on the v1 `/clip` handler a request with
`endTime = 5 ≤ startTime = 10` raises no validation error at all — the
directory is read, a source is selected and the transcoding subprocess is
reached. -/
theorem C3_counterexample :
    clipHandler_v1 (some 10) (some 5) ["video_1000.mp4"] 7
      = ClipResult.run "video_1000.mp4" "clip_7.mp4" := by decide

/-- Claim C3 (amended, v2 only): in the v2 handler every request with
`endTime ≤ startTime` or `startTime < 0` fails with the 400 validation error
before the storage directory is consulted (the outcome is the same for every
directory state), and no request with `startTime ≥ 0` and `endTime > startTime`
raises a validation error.  The legacy v1 handler performs no range
validation. -/
theorem C3_clip_validation_v2 (s e : ℚ) (files other : List String) (ts : Nat) :
    (e ≤ s ∨ s < 0 →
        clipHandler_v2 (some s) (some e) files ts = ClipResult.badRequest "Invalid time range"
        ∧ clipHandler_v2 (some s) (some e) files ts = clipHandler_v2 (some s) (some e) other ts)
    ∧ (0 ≤ s → s < e →
        ∀ msg, clipHandler_v2 (some s) (some e) files ts ≠ ClipResult.badRequest msg) := by
  constructor
  · intro hbad
    have hcond : s < 0 ∨ e ≤ s := hbad.symm
    simp only [clipHandler_v2]
    rw [if_pos hcond, if_pos hcond]
    exact ⟨rfl, rfl⟩
  · intro h0 hlt msg
    simp only [clipHandler_v2]
    rw [if_neg (by push_neg; constructor <;> linarith)]
    cases hsel : selectVideo files <;> simp [hsel]

/-- Witness for the amended C3. -/
theorem C3_clip_validation_v2_witness :
    ((5 : ℚ) ≤ 10 ∨ (10 : ℚ) < 0)
    ∧ (clipHandler_v2 (some 10) (some 5) ["video_1000.mp4"] 7
         = ClipResult.badRequest "Invalid time range"
       ∧ clipHandler_v2 (some 10) (some 5) ["video_1000.mp4"] 7
         = clipHandler_v2 (some 10) (some 5) [] 7) :=
  ⟨by decide, (C3_clip_validation_v2 10 5 ["video_1000.mp4"] [] 7).1 (by decide)⟩

/-- Claim C5: clip extraction selects the lexicographically-greatest `.mp4`
filename that does not start with `clip_` (so never a previous clip output),
fails with the 404 not-found outcome exactly when no such candidate exists,
and in particular on `{video_1000.mp4, clip_999.mp4}` selects
`video_1000.mp4` while a directory of only `clip_` files yields not-found. -/
theorem C5_source_selection (files : List String) (ts : Nat) (s e : ℚ) :
    (∀ f, selectVideo files = some f →
        f ∈ files ∧ jsEndsWith f ".mp4" = true ∧ jsStartsWith f "clip_" = false
        ∧ ∀ g ∈ files, isCandidate g = true → jsLeB g f = true)
    ∧ (selectVideo files = none ↔ ∀ g ∈ files, isCandidate g = false)
    ∧ (0 ≤ s → s < e → selectVideo files = none →
        clipHandler_v2 (some s) (some e) files ts = ClipResult.notFound "No video file found")
    ∧ clipHandler_v2 (some 10) (some 40) ["video_1000.mp4", "clip_999.mp4"] 5
        = ClipResult.run "video_1000.mp4" "clip_5.mp4"
    ∧ clipHandler_v2 (some 10) (some 40) ["clip_999.mp4", "clip_123.mp4"] 5
        = ClipResult.notFound "No video file found" := by
  refine ⟨?_, selectVideo_eq_none, ?_, by decide, by decide⟩
  · intro f hf
    obtain ⟨hmem, hcand, hmax⟩ := selectVideo_spec hf
    have h1 : jsEndsWith f ".mp4" = true ∧ !(jsStartsWith f "clip_") = true := by
      simpa [isCandidate, Bool.and_eq_true] using hcand
    exact ⟨hmem, h1.1, by simpa using h1.2, hmax⟩
  · intro h0 hlt hnone
    simp only [clipHandler_v2]
    rw [if_neg (by push_neg; constructor <;> linarith)]
    rw [hnone]

/-- Witness for C5. -/
theorem C5_source_selection_witness :
    (selectVideo ["video_1000.mp4", "clip_999.mp4"] = some "video_1000.mp4")
    ∧ ("video_1000.mp4" ∈ ["video_1000.mp4", "clip_999.mp4"]
       ∧ jsEndsWith "video_1000.mp4" ".mp4" = true
       ∧ jsStartsWith "video_1000.mp4" "clip_" = false
       ∧ ∀ g ∈ ["video_1000.mp4", "clip_999.mp4"], isCandidate g = true →
           jsLeB g "video_1000.mp4" = true) :=
  ⟨by decide,
   (C5_source_selection ["video_1000.mp4", "clip_999.mp4"] 5 10 40).1
     "video_1000.mp4" (by decide)⟩

/-- Claim C6: the transcription pipeline deletes the temporary audio file
exactly on the success path — the unlink runs if and only if the request ends
with the 200 response (API key present, numeric times, a source selected,
extraction succeeded, upload parsed), and any failure of the extraction or of
the upload/parse leaves the file behind (the catch block performs no
cleanup). -/
theorem C6_transcribe_cleanup (k : Bool) (st et : Option ℚ) (files : List String)
    (extractErr : Option String) (upload : Except String TranscriptionResponse) :
    ((transcribe_v2 k st et files extractErr upload).cleanupRan = true
      ↔ (transcribe_v2 k st et files extractErr upload).status = 200)
    ∧ (∀ msg, extractErr = some msg →
        (transcribe_v2 k st et files extractErr upload).cleanupRan = false)
    ∧ (∀ msg, upload = Except.error msg →
        (transcribe_v2 k st et files extractErr upload).cleanupRan = false)
    ∧ (∀ q r resp, k = true → st = some q → et = some r →
        extractErr = none → upload = Except.ok resp →
        (∃ v, selectVideo files = some v) →
        (transcribe_v2 k st et files extractErr upload).cleanupRan = true
        ∧ (transcribe_v2 k st et files extractErr upload).status = 200
        ∧ (transcribe_v2 k st et files extractErr upload).captions
            = formatCaptions resp.words) := by
  cases k with
  | false => simp [transcribe_v2]
  | true =>
    cases st with
    | none => simp [transcribe_v2]
    | some q0 =>
      cases et with
      | none => simp [transcribe_v2]
      | some r0 =>
        cases hsel : selectVideo files with
        | none => simp [transcribe_v2, hsel]
        | some v0 =>
          cases extractErr with
          | some m => simp [transcribe_v2, hsel]
          | none =>
            cases upload with
            | error m => simp [transcribe_v2, hsel]
            | ok resp => simp [transcribe_v2, hsel]

/-- Witness for C6: a fully successful run. -/
theorem C6_transcribe_cleanup_witness :
    ((transcribe_v2 true (some 0) (some 1) ["video_1.mp4"] none
        (.ok ⟨"hi", none⟩)).cleanupRan = true
      ↔ (transcribe_v2 true (some 0) (some 1) ["video_1.mp4"] none
        (.ok ⟨"hi", none⟩)).status = 200)
    ∧ (∀ msg, (none : Option String) = some msg →
        (transcribe_v2 true (some 0) (some 1) ["video_1.mp4"] none
          (.ok ⟨"hi", none⟩)).cleanupRan = false)
    ∧ (∀ msg, (Except.ok (⟨"hi", none⟩ : TranscriptionResponse)
          : Except String TranscriptionResponse) = Except.error msg →
        (transcribe_v2 true (some 0) (some 1) ["video_1.mp4"] none
          (.ok ⟨"hi", none⟩)).cleanupRan = false)
    ∧ (∀ q r resp, true = true → (some (0:ℚ) : Option ℚ) = some q →
        (some (1:ℚ) : Option ℚ) = some r →
        (none : Option String) = none →
        (Except.ok (⟨"hi", none⟩ : TranscriptionResponse)
          : Except String TranscriptionResponse) = Except.ok resp →
        (∃ v, selectVideo ["video_1.mp4"] = some v) →
        (transcribe_v2 true (some 0) (some 1) ["video_1.mp4"] none
          (.ok ⟨"hi", none⟩)).cleanupRan = true
        ∧ (transcribe_v2 true (some 0) (some 1) ["video_1.mp4"] none
          (.ok ⟨"hi", none⟩)).status = 200
        ∧ (transcribe_v2 true (some 0) (some 1) ["video_1.mp4"] none
          (.ok ⟨"hi", none⟩)).captions = formatCaptions resp.words) :=
  C6_transcribe_cleanup true (some 0) (some 1) ["video_1.mp4"] none (.ok ⟨"hi", none⟩)

/-! ## Helper lemmas for C8 -/

theorem processQueueEntry_ids (x : ServerState) :
    (processQueueEntry x).downloadQueue.map Job.id = x.downloadQueue.map Job.id
    ∧ (processQueueEntry x).enqueuedIds = x.enqueuedIds := by
  unfold processQueueEntry
  cases hp : x.isProcessing with
  | true => simp
  | false =>
    cases hqc : x.downloadQueue with
    | nil => simp [hqc]
    | cons a l => simp [hqc]

theorem processQueueEntry_starts (x : ServerState) (h : x.isProcessing = false)
    (hne : x.downloadQueue ≠ []) : (processQueueEntry x).isProcessing = true := by
  unfold processQueueEntry
  rw [h]
  simp only [Bool.false_eq_true, if_false]
  cases hqc : x.downloadQueue with
  | nil => exact absurd hqc hne
  | cons a l => rfl

/-- Claim C8 counterexample: the v1 enqueue handler accepts any nonempty
string: `"not a url"` (on which Node's `new URL` throws) is enqueued as a job
instead of being rejected with a 400, so the v1 queue is not protected by any
URL-syntax validation. -/
theorem C8_counterexample :
    (queueAddStep_v1 initState (some "not a url") none "1" "t0").downloadQueue.map Job.url
      = ["not a url"]
    ∧ queueAddStep_v1 initState (some "not a url") none "1" "t0" ≠ initState := by decide

/-- Claim C8 (amended, v2 only): the v2 enqueue handler rejects a missing url
and any url the URL parser rejects, leaving the state untouched; any accepted
url yields a new job — created with status `queued` and carrying the submitted
data — appended at the tail of the queue, and the drain loop is started when
it is not already running.  The legacy v1 handler only rejects a missing/empty
url. -/
theorem C8_enqueue_validation_v2 (cfg : Config) (s : ServerState) (u : String)
    (title : Option String) (id addedAt : String) :
    (queueAddStep cfg s none title id addedAt = s)
    ∧ (cfg.urlOk u = false → queueAddStep cfg s (some u) title id addedAt = s)
    ∧ ((mkJob u title id addedAt).status = Status.queued)
    ∧ (u ≠ "" → cfg.urlOk u = true →
        (queueAddStep cfg s (some u) title id addedAt).downloadQueue.map Job.id
          = s.downloadQueue.map Job.id ++ [id]
        ∧ (queueAddStep cfg s (some u) title id addedAt).enqueuedIds
          = s.enqueuedIds ++ [id]
        ∧ (s.isProcessing = true →
            queueAddStep cfg s (some u) title id addedAt
              = pushJob s (mkJob u title id addedAt) id)
        ∧ (s.isProcessing = false →
            (queueAddStep cfg s (some u) title id addedAt).isProcessing = true)) := by
  refine ⟨rfl, ?_, rfl, ?_⟩
  · intro hok
    simp only [queueAddStep]
    by_cases hu : u = ""
    · rw [if_pos hu]
    · rw [if_neg hu, if_pos hok]
  · intro hu hok
    simp only [queueAddStep]
    rw [if_neg hu, if_neg (by simp [hok])]
    cases hproc : s.isProcessing with
    | true =>
      rw [if_pos rfl]
      exact ⟨by simp [pushJob, mkJob], by simp [pushJob], fun _ => rfl,
        fun hcontra => absurd hcontra (by simp)⟩
    | false =>
      rw [if_neg (by simp)]
      refine ⟨?_, ?_, ?_, ?_⟩
      · rw [(processQueueEntry_ids (pushJob s (mkJob u title id addedAt) id)).1]
        simp [pushJob, mkJob]
      · rw [(processQueueEntry_ids (pushJob s (mkJob u title id addedAt) id)).2]
        simp [pushJob]
      · intro hcontra
        exact absurd hcontra (by simp)
      · intro _
        exact processQueueEntry_starts _ (by simp [pushJob, hproc]) (by simp [pushJob])

/-- Witness for the amended C8. -/
theorem C8_enqueue_validation_v2_witness :
    ("http://a" ≠ "" ∧ sampleCfg.urlOk "http://a" = true)
    ∧ ((queueAddStep sampleCfg initState (some "http://a") none "1" "t1").downloadQueue.map Job.id
         = initState.downloadQueue.map Job.id ++ ["1"]
       ∧ (queueAddStep sampleCfg initState (some "http://a") none "1" "t1").enqueuedIds
         = initState.enqueuedIds ++ ["1"]
       ∧ (initState.isProcessing = true →
           queueAddStep sampleCfg initState (some "http://a") none "1" "t1"
             = pushJob initState (mkJob "http://a" none "1" "t1") "1")
       ∧ (initState.isProcessing = false →
           (queueAddStep sampleCfg initState (some "http://a") none "1" "t1").isProcessing
             = true)) :=
  ⟨⟨by decide, rfl⟩,
   (C8_enqueue_validation_v2 sampleCfg initState "http://a" none "1" "t1").2.2.2
     (by decide) rfl⟩

/-! ## Helper lemmas for C9 -/

theorem containsSeg_of_mem {c : Char} : ∀ {l : List Char}, c ∈ l → containsSeg [c] l = true := by
  intro l
  induction l with
  | nil => intro h; cases h
  | cons d rest ih =>
    intro h
    simp only [containsSeg]
    rcases List.mem_cons.mp h with rfl | h2
    · have : List.isPrefixOf [c] (c :: rest) = true := by simp [List.isPrefixOf]
      rw [this]
      rfl
    · rw [ih h2]
      simp

theorem splitSegsAux_no_sep : ∀ (l cur : List Char),
    (∀ c ∈ l, ¬(c = '/' ∨ c = '\\')) → splitSegsAux l cur = [String.mk (cur.reverse ++ l)] := by
  intro l
  induction l with
  | nil => intro cur _; simp [splitSegsAux]
  | cons c rest ih =>
    intro cur h
    have hc := h c (List.mem_cons_self c rest)
    simp only [splitSegsAux]
    rw [if_neg hc, ih (c :: cur) (fun x hx => h x (List.mem_cons_of_mem c hx))]
    congr 1
    simp

theorem splitSegs_single {name : String} (h7 : jsIncludes name "/" = false)
    (h8 : jsIncludes name "\\" = false) : splitSegs name = [name] := by
  unfold splitSegs
  rw [splitSegsAux_no_sep name.data []]
  · rfl
  · intro c hc hcon
    unfold jsIncludes at h7 h8
    rcases hcon with rfl | rfl
    · rw [containsSeg_of_mem hc] at h7; cases h7
    · rw [containsSeg_of_mem hc] at h8; cases h8

theorem joinPath_plain (dir : List String) (filename : String)
    (htr : isTraversal filename = false) :
    joinPath dir filename = dir ∨ joinPath dir filename = dir ++ [filename] := by
  have hparts : jsIncludes filename ".." = false ∧ jsIncludes filename "/" = false
      ∧ jsIncludes filename "\\" = false := by
    simpa [isTraversal, Bool.or_eq_false_iff, and_assoc] using htr
  unfold joinPath
  rw [splitSegs_single hparts.2.1 hparts.2.2]
  unfold normFold
  by_cases h0 : filename = "" ∨ filename = "."
  · rw [if_pos h0]; exact Or.inl rfl
  · rw [if_neg h0]
    have hdd : ¬ filename = ".." := by
      intro hcontra
      rw [hcontra] at hparts
      exact absurd hparts.1 (by decide)
    rw [if_neg hdd]
    exact Or.inr rfl

/-- Claim C9 counterexample: the v1 delete handler performs no validation —
`DELETE /file/..%2Fsecret.txt` resolves through `path.join` to a path outside
the storage directory and deletes it, returning ok instead of an error. -/
theorem C9_counterexample :
    deleteFile_v1 ["srv", "downloads"] [["srv", "secret.txt"]] "../secret.txt"
      = DeleteOutcome.deleted ["srv", "secret.txt"]
    ∧ ¬ (["srv", "downloads"] <+: ["srv", "secret.txt"]) := by decide

/-- Claim C9 (amended, v2 only): the v2 delete handler rejects any filename
containing `..`, `/` or `\` with a 400 error; whatever it deletes resolves to
a path inside the storage directory; and for a plain filename it deletes the
resolved file and returns ok when it exists, 404 otherwise.  The legacy v1
handler performs no path-traversal validation. -/
theorem C9_delete_validation_v2 (dir : List String) (fsFiles : List (List String))
    (filename : String) :
    (isTraversal filename = true → deleteFile_v2 dir fsFiles filename = DeleteOutcome.invalid)
    ∧ (∀ p, deleteFile_v2 dir fsFiles filename = DeleteOutcome.deleted p → dir <+: p)
    ∧ (isTraversal filename = false →
        (joinPath dir filename ∈ fsFiles →
          deleteFile_v2 dir fsFiles filename
            = DeleteOutcome.deleted (joinPath dir filename))
        ∧ (joinPath dir filename ∉ fsFiles →
          deleteFile_v2 dir fsFiles filename = DeleteOutcome.notFound)) := by
  refine ⟨?_, ?_, ?_⟩
  · intro htr
    unfold deleteFile_v2
    rw [if_pos htr]
  · intro p h
    unfold deleteFile_v2 at h
    by_cases htr : isTraversal filename = true
    · rw [if_pos htr] at h; cases h
    · rw [if_neg htr] at h
      rw [Bool.not_eq_true] at htr
      by_cases hmem : joinPath dir filename ∈ fsFiles
      · rw [if_pos hmem] at h
        injection h with hp
        rw [← hp]
        rcases joinPath_plain dir filename htr with hj | hj
        · rw [hj]
        · rw [hj]; exact List.prefix_append dir [filename]
      · rw [if_neg hmem] at h; cases h
  · intro htr
    unfold deleteFile_v2
    rw [if_neg (by rw [htr]; exact Bool.false_ne_true)]
    constructor
    · intro hmem; rw [if_pos hmem]
    · intro hmem; rw [if_neg hmem]

/-- Witness for the amended C9. -/
theorem C9_delete_validation_v2_witness :
    (isTraversal "a.mp4" = false)
    ∧ ((joinPath ["d"] "a.mp4" ∈ [["d", "a.mp4"]] →
         deleteFile_v2 ["d"] [["d", "a.mp4"]] "a.mp4"
           = DeleteOutcome.deleted (joinPath ["d"] "a.mp4"))
       ∧ (joinPath ["d"] "a.mp4" ∉ [["d", "a.mp4"]] →
         deleteFile_v2 ["d"] [["d", "a.mp4"]] "a.mp4" = DeleteOutcome.notFound)) :=
  ⟨by decide, (C9_delete_validation_v2 ["d"] [["d", "a.mp4"]] "a.mp4").2.2 (by decide)⟩

end ClipCraft
